import Mathlib

/-!
Verification development for the PN532 NFC reader firmware (src/main.cpp).

The firmware is shallowly embedded: Arduino `String` values become lists of
byte values (`Str`), the EEPROM becomes a function from addresses to stored
bytes (`Rom`), the global mutable variables become fields of a `Sys` record,
and each C++ function becomes a Lean function from inputs and pre-state to
post-state plus the lines printed on each output channel.
-/

set_option autoImplicit false

/-- Arduino `String` modelled as the list of its character byte values. -/
abbrev Str := List Nat

/-- Byte values of a Lean string literal, for writing concrete `Str` inputs. -/
def bytes (s : String) : Str := s.toList.map Char.toNat

/-- The EEPROM: a map from address to stored byte. -/
abbrev Rom := Nat → Nat

/-- `EEPROM.write(a, v)`: cells hold bytes, so the stored value is `v % 256`. -/
def romWrite (rom : Rom) (a v : Nat) : Rom :=
  fun x => if x = a then v % 256 else rom x

/-- `EEPROM.read(a)`: a cell read always yields a byte. -/
def romRead (rom : Rom) (a : Nat) : Nat := rom a % 256

/-- The character-writing loop of `writeStringToEEPROM`: write the bytes of
`bs` at consecutive addresses starting at `a`. -/
def writeBytes (rom : Rom) (a : Nat) : Str → Rom
  | [] => rom
  | b :: bs => writeBytes (romWrite rom a b) (a + 1) bs

/-- `writeStringToEEPROM(addrOffset, strToWrite)` from src/main.cpp lines
59-65: store `byte len = strToWrite.length()` at `addrOffset`, then the first
`len` characters at `addrOffset + 1 + i`. -/
def writeStringToEEPROM (addrOffset : Nat) (strToWrite : Str) (rom : Rom) : Rom :=
  let len := strToWrite.length % 256
  writeBytes (romWrite rom addrOffset len) (addrOffset + 1) (strToWrite.take len)

/-- `readStringFromEEPROM(addrOffset)` from src/main.cpp lines 77-85: read the
length byte, read that many data bytes into a C character buffer terminated by
a zero byte, and build an Arduino `String` from that buffer.  `String(char*)`
copies up to the first zero byte, hence the `takeWhile`. -/
def readStringFromEEPROM (addrOffset : Nat) (rom : Rom) : Str :=
  let newStrLen := romRead rom addrOffset
  (((List.range newStrLen).map (fun i => romRead rom (addrOffset + 1 + i))).takeWhile
    (fun b => b != 0))

/-- The three output devices the firmware prints to. -/
inductive Channel
  | serial
  | serial2
  | bt
  deriving DecidableEq

/-- One `println` call: the channel it went to and the text printed. -/
abbrev Out := Channel × Str

/-- The debounced transition signals of the tag presence state machine:
`arrived` at the new-tag branch of `readNFC`, `removed` at its card-removed
branch. -/
inductive Event
  | arrived (id : Str)
  | removed (id : Str)
  deriving DecidableEq

/-- The global mutable state of the firmware (src/main.cpp lines 40-48)
together with the EEPROM contents. -/
structure Sys where
  mode : Bool
  numTags : Nat
  removeCommand : Str
  commands : Nat → Str
  tags : Nat → Str
  tagID : Str
  prevTagID : Str
  cardPresesnt : Bool
  rom : Rom

/-- The freshly booted global state: every global has its C++ initializer
(lines 40-48), before `setup()` runs. -/
def sysInit (rom : Rom) : Sys where
  mode := false
  numTags := 0
  removeCommand := []
  commands := fun _ => []
  tags := fun _ => []
  tagID := []
  prevTagID := []
  cardPresesnt := false
  rom := rom

/-- Assignment to one cell of a C array modelled as a function. -/
def updateF (f : Nat → Str) (i : Nat) (v : Str) : Nat → Str :=
  fun j => if j = i then v else f j

/-- The digit-consuming loop of `atol`: fold decimal digits until the first
non-digit character. -/
def digitsVal : Str → Nat → Nat
  | [], acc => acc
  | b :: bs, acc => if 48 ≤ b ∧ b ≤ 57 then digitsVal bs (10 * acc + (b - 48)) else acc

/-- `isspace` bytes skipped by `atol`: space and the characters 9..13. -/
def isSpaceB (b : Nat) : Bool := b == 32 || (9 ≤ b && b ≤ 13)

/-- `atol` on a byte string: skip whitespace, take an optional leading plus
(43) or minus (45) sign, fold the following run of decimal digits; exact
integer result, before any wrap. -/
def atolVal (s : Str) : Int :=
  match s.dropWhile isSpaceB with
  | [] => 0
  | b :: r =>
    if b = 43 then (digitsVal r 0 : Int)
    else if b = 45 then -((digitsVal r 0 : Int))
    else (digitsVal (b :: r) 0 : Int)

/-- Reduction of an integer into a signed 32-bit `long`. -/
def wrap32 (v : Int) : Int := ((v + 2147483648) % 4294967296) - 2147483648

/-- Arduino `String::toInt()`: `atol` on the buffer, returned as a 32-bit
`long`. -/
def toIntC (s : Str) : Int := wrap32 (atolVal s)

/-- The mathematical value of a string of decimal digit bytes (the spec-side
meaning of a numeral received as a count argument). -/
def decValue (ds : Str) : Nat := ds.foldl (fun a b => 10 * a + (b - 48)) 0

/-- Decimal rendering of a number as printed by `println` of an integer. -/
def showNat (n : Nat) : Str := (Nat.toDigits 10 n).map Char.toNat

/-- `String.toUpperCase` on one byte. -/
def toUpperB (b : Nat) : Nat := if 97 ≤ b ∧ b ≤ 122 then b - 32 else b

/-- One lowercase hexadecimal digit character. -/
def hexDigit (d : Nat) : Nat := if d < 10 then 48 + d else 87 + d

/-- The UID-byte rendering of src/main.cpp lines 135-138: a leading zero for
bytes below 0x10, then `String(uid[i], HEX)` in lowercase. -/
def byteToHex (b0 : Nat) : Str :=
  let b := b0 % 256
  if b < 16 then [48, hexDigit b] else [hexDigit (b / 16), hexDigit (b % 16)]

/-- The tag identity string built from a polled UID: hex bytes concatenated,
then `toUpperCase` applied to the whole string (line 139). -/
def uidToStr (u : List Nat) : Str := (u.flatMap byteToHex).map toUpperB

/-- The output device used for event commands: `Serial2` when `mode` is set
(Master), `Serial` otherwise (Standalone); src/main.cpp lines 99-100, 156-157. -/
def evChan (m : Bool) : Channel := if m then Channel.serial2 else Channel.serial

/-- The linear scan `for (i = 0; i < numTags; i++) if (x == tags[i])` that
both `processTagID` and the removal branch of `readNFC` perform: the first
matching index, if any. -/
def firstMatch (tags : Nat → Str) (n : Nat) (id : Str) : Option Nat :=
  (List.range n).find? (fun i => id == tags i)

/-- `processTagID(tagID_)` from src/main.cpp lines 96-105: on the first slot
whose tag matches, print an empty line and the slot command on the channel
selected by `mode`; with `DEBUG` fixed at 0 the unknown-tag branch prints
nothing. -/
def processTagID (tagID_ : Str) (s : Sys) : List Out :=
  match firstMatch s.tags s.numTags tagID_ with
  | some i => [(evChan s.mode, []), (evChan s.mode, s.commands i)]
  | none => []

/-- `readNFC()` from src/main.cpp lines 118-162, one poll cycle.  `tagID` is
cleared first (line 122); the four disjoint cases follow lines 128-161.  The
result lists the transition events and the `println` calls performed. -/
def readNFC (poll : Option (List Nat)) (s0 : Sys) : Sys × List Event × List Out :=
  let s := {s0 with tagID := ([] : Str)}
  match poll with
  | some u =>
    if s.cardPresesnt then (s, [], [])
    else
      let id := uidToStr u
      let s1 := {s with cardPresesnt := true, tagID := id, prevTagID := id}
      (s1, [Event.arrived id], processTagID id s1)
  | none =>
    if s.cardPresesnt then
      let s1 := {s with cardPresesnt := false}
      let outs :=
        match firstMatch s1.tags s1.numTags s1.prevTagID with
        | some _ => [(evChan s1.mode, ([] : Str)), (evChan s1.mode, s1.removeCommand)]
        | none => ([] : List Out)
      (s1, [Event.removed s1.prevTagID], outs)
    else (s, [], [])

/-- Run a sequence of poll results through `readNFC`, collecting the emitted
events. -/
def runPolls : List (Option (List Nat)) → Sys → Sys × List Event
  | [], s => (s, [])
  | p :: ps, s =>
    let r := readNFC p s
    let rest := runPolls ps r.1
    (rest.1, r.2.1 ++ rest.2)

/-- Whether `small` is a prefix of the second list (byte-wise). -/
def prefMatch : Str → Str → Bool
  | [], _ => true
  | _ :: _, [] => false
  | a :: as, b :: bs => a == b && prefMatch as bs

/-- `String::indexOf(needle) >= 0`: the needle occurs as a contiguous
substring. -/
def containsSeq (needle : Str) : Str → Bool
  | [] => prefMatch needle []
  | b :: bs => prefMatch needle (b :: bs) || containsSeq needle bs

/-- `data.startsWith(c)` for a one-character prefix. -/
def startsWithCh (data : Str) (c : Nat) : Bool :=
  match data with
  | b :: _ => b == c
  | [] => false

/-- `processData(data)` from src/main.cpp lines 207-270, the command protocol
parser.  Output lines are listed in program order with their channel; the
`EEPROM.commit()` and `delay(10)` calls have no effect in this model. -/
def processData (data : Str) (s : Sys) : Sys × List Out :=
  if startsWithCh data 78 then
    -- "N": numTags = data.substring(1).toInt() into a uint8_t, then the
    -- array-bounds check, write-back to EEPROM address 0 and acknowledgement.
    let nt0 := ((toIntC (data.drop 1)) % 256).toNat
    let nt := if nt0 > 20 then 10 else nt0
    let rom1 := romWrite s.rom 0 nt
    let num := romRead rom1 0
    ({s with numTags := nt, rom := rom1},
      [(Channel.serial, showNat nt),
       (Channel.bt, bytes "NUM TAGS SET TO: " ++ showNat num),
       (Channel.serial, bytes "NUM TAGS SET TO: " ++ showNat num)])
  else if startsWithCh data 84 then
    -- "T": bind the last seen tag to the 1-based index, then dump the
    -- tag records of the first numTags slots from EEPROM on both channels.
    let index := toIntC (data.drop 1) - 1
    let s1 :=
      if 0 ≤ index ∧ index < 20 then
        {s with tags := updateF s.tags index.toNat s.prevTagID,
                rom := writeStringToEEPROM (10 + index.toNat * 10) s.prevTagID s.rom}
      else s
    let outs := (List.range s1.numTags).flatMap (fun i =>
      let tagID_ := readStringFromEEPROM (10 + i * 10) s1.rom
      let line := bytes "Index: " ++ showNat (i + 1) ++ bytes " Tag ID: " ++ tagID_
      [(Channel.bt, line), (Channel.serial, line)])
    (s1, outs)
  else if startsWithCh data 67 then
    -- "C": store data.substring(3) as the command for the 1-based index,
    -- then dump the command records of the first numTags slots.
    let index := toIntC (data.drop 1) - 1
    let s1 :=
      if 0 ≤ index ∧ index < 20 then
        {s with commands := updateF s.commands index.toNat (data.drop 3),
                rom := writeStringToEEPROM (200 + index.toNat * 10) (data.drop 3) s.rom}
      else s
    let outs := (List.range s1.numTags).flatMap (fun i =>
      let command := readStringFromEEPROM (200 + i * 10) s1.rom
      let line := bytes "Index: " ++ showNat (i + 1) ++ bytes " Command: " ++ command
      [(Channel.bt, line), (Channel.serial, line)])
    (s1, outs)
  else if startsWithCh data 82 then
    -- "R": set the remove command, persist it at address 400, read it back.
    let rc := data.drop 1
    let rom1 := writeStringToEEPROM 400 rc s.rom
    let command := readStringFromEEPROM 400 rom1
    ({s with removeCommand := rc, rom := rom1},
      [(Channel.bt, bytes "Remove Command: " ++ command),
       (Channel.serial, bytes "Remove Command: " ++ command)])
  else if containsSeq (bytes "HELP") data then
    (s, [(Channel.bt, bytes "RFID Cube Podium PN532 - Firmware v1.0"),
         (Channel.bt, bytes "N<num> - Set number of tags. \x27Eg: N10\x27 "),
         (Channel.bt, bytes "T<index> - Set Last placed tag ID for index. Eg: T1"),
         (Channel.bt, bytes "C<index><command> - Set command for index. Eg: C1HELLO - Set HELLO command for index 1"),
         (Channel.bt, bytes "R<command> - Set Tag Remove command. Eg: RREMOVED - Set REMOVED command for tag remove"),
         (Channel.serial, bytes "RFID Cube Podium PN532 - Firmware v1.0"),
         (Channel.serial, []),
         (Channel.serial, bytes "N<num> - Set number of tags. \x27Eg: N10\x27 "),
         (Channel.serial, bytes "T<index> - Set Last placed tag ID for index. Eg: T1"),
         (Channel.serial, bytes "C<index><command> - Set command for index. Eg: C1HELLO - Set HELLO command for index 1"),
         (Channel.serial, bytes "R<command> - Set Tag Remove command. Eg: RREMOVED - Set REMOVED command for tag remove")])
  else (s, [])

/-- `readSerial()` from src/main.cpp lines 281-287: when a full line is
available on `Serial`, hand it to `processData` (`DEBUG` is 0, no echo). -/
def readSerial (line : Option Str) (s : Sys) : Sys × List Out :=
  match line with
  | some incoming => processData incoming s
  | none => (s, [])

/-- `readBTSerial()` from src/main.cpp lines 297-303: the same for the
Bluetooth channel. -/
def readBTSerial (line : Option Str) (s : Sys) : Sys × List Out :=
  match line with
  | some incoming => processData incoming s
  | none => (s, [])

/-- The load loop of `eepromInit` over the given slot indices: read each tag
record at `10 + i*10` and each command record at `200 + i*10`. -/
def loadLoop (rom : Rom) (s : Sys) : List Nat → Sys
  | [] => s
  | i :: is =>
    loadLoop rom
      {s with tags := updateF s.tags i (readStringFromEEPROM (10 + i * 10) rom),
              commands := updateF s.commands i (readStringFromEEPROM (200 + i * 10) rom)}
      is

/-- `eepromInit()` from src/main.cpp lines 316-325, run on the fresh-boot
globals: read the tag count from address 0, clamp it, read the remove command
from address 400, then load the first `numTags` tag and command records. -/
def eepromInit (rom : Rom) : Sys :=
  let n0 := romRead rom 0
  let n := if n0 > 20 then 10 else n0
  loadLoop rom
    {sysInit rom with numTags := n, removeCommand := readStringFromEEPROM 400 rom}
    (List.range n)

/-- Bind identity `X` as the last-seen tag of slot `i` through the T command
(1-based index `i+1`), then reboot: re-run `eepromInit` on the resulting
EEPROM contents. -/
def bindThenLoad (i : Nat) (X : Str) (s : Sys) : Sys :=
  eepromInit ((processData (bytes "T" ++ showNat (i + 1)) {s with prevTagID := X}).1.rom)

/-- One loop-body action touching the shared state: a parsed command line or
one NFC poll (src/main.cpp lines 355-359). -/
inductive Step : Sys → Sys → Prop
  | cmd (data : Str) {s : Sys} : Step s (processData data s).1
  | nfc (poll : Option (List Nat)) {s : Sys} : Step s (readNFC poll s).1

/-- States reachable from a boot with EEPROM contents `rom`. -/
inductive Reach (rom : Rom) : Sys → Prop
  | boot : Reach rom (eepromInit rom)
  | step {s t : Sys} : Reach rom s → Step s t → Reach rom t

/-- An EEPROM whose every cell reads 0, used for concrete scenarios. -/
def romZero : Rom := fun _ => 0

/-- An EEPROM whose every cell reads 1 (so the stored tag count is 1). -/
def romOne : Rom := fun _ => 1

/-- An EEPROM whose every cell reads 3 (so the stored tag count is 3). -/
def romThree : Rom := fun _ => 3

/-- A concrete state in which a tag with UID byte 4 is present: one arrival
poll applied to the boot state. -/
def sPresent : Sys := (readNFC (some [4]) (sysInit romZero)).1

/-! ### Persistent store round-trip lemmas -/

theorem writeBytes_lt (bs : Str) : ∀ (rom : Rom) (a x : Nat), x < a →
    writeBytes rom a bs x = rom x := by
  induction bs with
  | nil => intro rom a x _; rfl
  | cons b bs ih =>
    intro rom a x hx
    show writeBytes (romWrite rom a b) (a + 1) bs x = rom x
    rw [ih (romWrite rom a b) (a + 1) x (Nat.lt_succ_of_lt hx)]
    simp [romWrite, Nat.ne_of_lt hx]

theorem writeBytes_getD (bs : Str) : ∀ (rom : Rom) (a i : Nat), i < bs.length →
    writeBytes rom a bs (a + i) = bs.getD i 0 % 256 := by
  induction bs with
  | nil => intro rom a i h; simp at h
  | cons b bs ih =>
    intro rom a i h
    cases i with
    | zero =>
      show writeBytes (romWrite rom a b) (a + 1) bs a = b % 256
      rw [writeBytes_lt bs (romWrite rom a b) (a + 1) a (Nat.lt_succ_self a)]
      simp [romWrite]
    | succ i =>
      have h2 : i < bs.length := by simpa using h
      show writeBytes (romWrite rom a b) (a + 1) bs (a + (i + 1)) = bs.getD i 0 % 256
      rw [show a + (i + 1) = (a + 1) + i by omega]
      exact ih (romWrite rom a b) (a + 1) i h2

theorem takeWhile_ne_zero (s : Str) (h : ∀ b ∈ s, b ≠ 0) :
    s.takeWhile (fun b => b != 0) = s := by
  induction s with
  | nil => rfl
  | cons b bs ih =>
    have hb : (b != 0) = true := by
      simpa using h b (List.mem_cons_self b bs)
    have hbs : ∀ x ∈ bs, x ≠ 0 := fun x hx => h x (List.mem_cons_of_mem b hx)
    simp [List.takeWhile, hb, ih hbs]

theorem range_map_getD (s : Str) : (List.range s.length).map (fun i => s.getD i 0) = s := by
  apply List.ext_getElem
  · simp
  · intro i h1 h2
    simp only [List.getElem_map, List.getElem_range]
    exact List.getD_eq_getElem s 0 h2

/-- The round-trip contract of the persistent store adapter: a record written
at an address is read back unchanged, provided the string fits in the length
byte and none of its characters is the zero byte (the C string rebuild in
`readStringFromEEPROM` stops at a zero byte). -/
theorem readString_writeString (addr : Nat) (s : Str) (rom : Rom)
    (hlen : s.length < 256) (hb : ∀ b ∈ s, b < 256 ∧ b ≠ 0) :
    readStringFromEEPROM addr (writeStringToEEPROM addr s rom) = s := by
  have hmod : s.length % 256 = s.length := Nat.mod_eq_of_lt hlen
  have hw : writeStringToEEPROM addr s rom
      = writeBytes (romWrite rom addr s.length) (addr + 1) s := by
    simp only [writeStringToEEPROM]
    rw [hmod, List.take_length]
  have hlenbyte : romRead (writeStringToEEPROM addr s rom) addr = s.length := by
    rw [hw]
    unfold romRead
    rw [writeBytes_lt s _ (addr + 1) addr (Nat.lt_succ_self addr)]
    simp [romWrite, Nat.mod_eq_of_lt hlen]
  have hcell : ∀ i, i < s.length →
      romRead (writeStringToEEPROM addr s rom) (addr + 1 + i) = s.getD i 0 := by
    intro i hi
    have hlt : s.getD i 0 < 256 := by
      have hm : s.getD i 0 ∈ s := by
        rw [List.getD_eq_getElem s 0 hi]
        exact List.getElem_mem hi
      exact (hb _ hm).1
    rw [hw]
    unfold romRead
    rw [writeBytes_getD s _ (addr + 1) i hi]
    omega
  have hread : readStringFromEEPROM addr (writeStringToEEPROM addr s rom)
      = ((List.range s.length).map
          (fun i => romRead (writeStringToEEPROM addr s rom) (addr + 1 + i))).takeWhile
          (fun b => b != 0) := by
    unfold readStringFromEEPROM
    rw [hlenbyte]
  rw [hread]
  have hmap : (List.range s.length).map
      (fun i => romRead (writeStringToEEPROM addr s rom) (addr + 1 + i))
      = (List.range s.length).map (fun i => s.getD i 0) :=
    List.map_congr_left (fun i hi => hcell i (List.mem_range.mp hi))
  rw [hmap, range_map_getD s]
  exact takeWhile_ne_zero s (fun b h => (hb b h).2)

/-- A record write never touches addresses below its offset. -/
theorem writeString_lt (addr : Nat) (s : Str) (rom : Rom) (x : Nat) (hx : x < addr) :
    writeStringToEEPROM addr s rom x = rom x := by
  simp only [writeStringToEEPROM]
  rw [writeBytes_lt _ _ (addr + 1) x (by omega)]
  simp [romWrite, Nat.ne_of_lt hx]

/-! ### Load-loop lemmas -/

theorem loadLoop_numTags (rom : Rom) : ∀ (l : List Nat) (s : Sys),
    (loadLoop rom s l).numTags = s.numTags := by
  intro l
  induction l with
  | nil => intro s; rfl
  | cons i is ih => intro s; rw [loadLoop, ih]

theorem loadLoop_mode (rom : Rom) : ∀ (l : List Nat) (s : Sys),
    (loadLoop rom s l).mode = s.mode := by
  intro l
  induction l with
  | nil => intro s; rfl
  | cons i is ih => intro s; rw [loadLoop, ih]

theorem loadLoop_tags (rom : Rom) : ∀ (l : List Nat) (s : Sys) (i : Nat),
    (loadLoop rom s l).tags i
      = if i ∈ l then readStringFromEEPROM (10 + i * 10) rom else s.tags i := by
  intro l
  induction l with
  | nil => intro s i; simp [loadLoop]
  | cons j js ih =>
    intro s i
    rw [loadLoop, ih]
    by_cases hmem : i ∈ js
    · simp [hmem]
    · by_cases hij : i = j
      · subst hij; simp [hmem, updateF]
      · simp [hmem, hij, updateF]

theorem loadLoop_commands (rom : Rom) : ∀ (l : List Nat) (s : Sys) (i : Nat),
    (loadLoop rom s l).commands i
      = if i ∈ l then readStringFromEEPROM (200 + i * 10) rom else s.commands i := by
  intro l
  induction l with
  | nil => intro s i; simp [loadLoop]
  | cons j js ih =>
    intro s i
    rw [loadLoop, ih]
    by_cases hmem : i ∈ js
    · simp [hmem]
    · by_cases hij : i = j
      · subst hij; simp [hmem, updateF]
      · simp [hmem, hij, updateF]

/-! ### eepromInit lemmas -/

theorem eepromInit_numTags (rom : Rom) :
    (eepromInit rom).numTags
      = if romRead rom 0 > 20 then 10 else romRead rom 0 := by
  unfold eepromInit
  rw [loadLoop_numTags]

theorem eepromInit_numTags_le (rom : Rom) : (eepromInit rom).numTags ≤ 20 := by
  rw [eepromInit_numTags]
  split <;> omega

theorem eepromInit_mode (rom : Rom) : (eepromInit rom).mode = false := by
  unfold eepromInit
  rw [loadLoop_mode]
  rfl

theorem eepromInit_tags (rom : Rom) (i : Nat) (h : i < (eepromInit rom).numTags) :
    (eepromInit rom).tags i = readStringFromEEPROM (10 + i * 10) rom := by
  rw [eepromInit_numTags] at h
  unfold eepromInit
  rw [loadLoop_tags]
  have : i ∈ List.range (if romRead rom 0 > 20 then 10 else romRead rom 0) :=
    List.mem_range.mpr h
  simp [this]

theorem eepromInit_commands (rom : Rom) (i : Nat) (h : i < (eepromInit rom).numTags) :
    (eepromInit rom).commands i = readStringFromEEPROM (200 + i * 10) rom := by
  rw [eepromInit_numTags] at h
  unfold eepromInit
  rw [loadLoop_commands]
  have : i ∈ List.range (if romRead rom 0 > 20 then 10 else romRead rom 0) :=
    List.mem_range.mpr h
  simp [this]

/-! ### Preservation lemmas for the loop operations -/

theorem processData_mode (data : Str) (s : Sys) :
    (processData data s).1.mode = s.mode := by
  unfold processData
  repeat' split
  all_goals dsimp only
  all_goals try split
  all_goals rfl

theorem processData_numTags_le (data : Str) (s : Sys) (h : s.numTags ≤ 20) :
    (processData data s).1.numTags ≤ 20 := by
  unfold processData
  repeat' split
  all_goals dsimp only
  all_goals try split
  all_goals first
    | omega
    | assumption

theorem readNFC_mode (poll : Option (List Nat)) (s : Sys) :
    (readNFC poll s).1.mode = s.mode := by
  unfold readNFC
  cases poll <;> dsimp only <;> split <;> rfl

theorem readNFC_numTags (poll : Option (List Nat)) (s : Sys) :
    (readNFC poll s).1.numTags = s.numTags := by
  unfold readNFC
  cases poll <;> dsimp only <;> split <;> rfl

/-! ### Parsing lemmas -/

theorem toIntC_showNat_lt20 : ∀ i : Nat, i < 20 →
    toIntC (showNat (i + 1)) = ((i + 1 : Nat) : Int) := by decide

theorem digitsVal_foldl : ∀ (ds : Str) (acc : Nat), (∀ b ∈ ds, 48 ≤ b ∧ b ≤ 57) →
    digitsVal ds acc = ds.foldl (fun a b => 10 * a + (b - 48)) acc := by
  intro ds
  induction ds with
  | nil => intro acc _; rfl
  | cons b bs ih =>
    intro acc h
    have hb := h b (List.mem_cons_self b bs)
    have hbs : ∀ x ∈ bs, 48 ≤ x ∧ x ≤ 57 := fun x hx => h x (List.mem_cons_of_mem b hx)
    rw [List.foldl_cons, ← ih (10 * acc + (b - 48)) hbs]
    simp [digitsVal, hb]

theorem atolVal_digits (ds : Str) (h : ∀ b ∈ ds, 48 ≤ b ∧ b ≤ 57) :
    atolVal ds = (decValue ds : Int) := by
  cases ds with
  | nil => rfl
  | cons b bs =>
    have hb := h b (List.mem_cons_self b bs)
    have hdrop : (b :: bs).dropWhile isSpaceB = b :: bs := by
      have : isSpaceB b = false := by
        simp only [isSpaceB, Bool.or_eq_false_iff, Bool.and_eq_false_iff,
          beq_eq_false_iff_ne, ne_eq, decide_eq_false_iff_not, not_le]
        omega
      simp [List.dropWhile, this]
    have h43 : ¬(b = 43) := by omega
    have h45 : ¬(b = 45) := by omega
    unfold atolVal
    rw [hdrop]
    dsimp only
    rw [if_neg h43, if_neg h45, digitsVal_foldl (b :: bs) 0 h]
    rfl

theorem wrap32_emod256 (v : Int) : wrap32 v % 256 = v % 256 := by
  unfold wrap32
  have hdvd : (256 : Int) ∣ 4294967296 := by decide
  rw [Int.sub_emod, Int.emod_emod_of_dvd _ hdvd, ← Int.sub_emod]
  simp

/-! ### The T command: effect on the EEPROM -/

theorem processData_T_rom (i : Nat) (hi : i < 20) (s : Sys) :
    (processData (bytes "T" ++ showNat (i + 1)) s).1.rom
      = writeStringToEEPROM (10 + i * 10) s.prevTagID s.rom := by
  have hb : bytes "T" ++ showNat (i + 1) = 84 :: showNat (i + 1) := by
    have : bytes "T" = [84] := by decide
    rw [this]
    rfl
  rw [hb]
  have hN : startsWithCh (84 :: showNat (i + 1)) 78 = false := by
    simp [startsWithCh]
  have hT : startsWithCh (84 :: showNat (i + 1)) 84 = true := by
    simp [startsWithCh]
  have hdrop : (84 :: showNat (i + 1)).drop 1 = showNat (i + 1) := rfl
  have hparse : toIntC (showNat (i + 1)) = ((i + 1 : Nat) : Int) :=
    toIntC_showNat_lt20 i hi
  have hindex : toIntC ((84 :: showNat (i + 1)).drop 1) - 1 = (i : Int) := by
    rw [hdrop, hparse]
    push_cast
    ring
  unfold processData
  rw [hN, hT]
  dsimp only
  rw [hindex]
  have hcond : (0 : Int) ≤ (i : Int) ∧ (i : Int) < 20 := by
    constructor
    · exact Int.natCast_nonneg i
    · exact_mod_cast hi
  rw [if_pos hcond]
  simp [Int.toNat_natCast]

/-! ### Reachability invariants -/

theorem reach_mode (rom : Rom) (s : Sys) (h : Reach rom s) : s.mode = false := by
  induction h with
  | boot => exact eepromInit_mode rom
  | step _ hs ih =>
    cases hs with
    | cmd data => rw [processData_mode]; exact ih
    | nfc poll => rw [readNFC_mode]; exact ih

theorem reach_numTags_le (rom : Rom) (s : Sys) (h : Reach rom s) : s.numTags ≤ 20 := by
  induction h with
  | boot => exact eepromInit_numTags_le rom
  | step _ hs ih =>
    cases hs with
    | cmd data => exact processData_numTags_le data _ ih
    | nfc poll => rw [readNFC_numTags]; exact ih

/-- Every line printed by `processTagID` goes to the channel selected by
`mode`. -/
theorem processTagID_channels (id : Str) (s : Sys) (o : Out)
    (ho : o ∈ processTagID id s) : o.1 = evChan s.mode := by
  unfold processTagID at ho
  split at ho
  · simp only [List.mem_cons, List.not_mem_nil, or_false] at ho
    rcases ho with h1 | h1 <;> subst h1 <;> rfl
  · simp at ho

/-- Every line printed by the removal branch or the arrival branch of
`readNFC` goes to the channel selected by `mode`. -/
theorem readNFC_channels (poll : Option (List Nat)) (s : Sys) (o : Out)
    (ho : o ∈ (readNFC poll s).2.2) : o.1 = evChan s.mode := by
  unfold readNFC at ho
  cases poll with
  | some u =>
    dsimp only at ho
    split at ho
    · simp at ho
    · exact processTagID_channels _ _ o ho
  | none =>
    dsimp only at ho
    split at ho
    · split at ho
      · simp only [List.mem_cons, List.not_mem_nil, or_false] at ho
        rcases ho with h1 | h1 <;> subst h1 <;> rfl
      · simp at ho
    · simp at ho

/-! ### Claim C1: slot count set through the N command -/

/-- C1 counterexample: the claim predicts that the N command with count 21
yields `min 21 20 = 20`, but the code clamps any parsed 8-bit count above 20
to the default 10, so `N21` yields 10. -/
theorem slotCount_not_min_cex :
    (processData (bytes "N21") (sysInit romZero)).1.numTags = 10
  ∧ (10 : Nat) ≠ min 21 20 := by decide

/-- C1 (amended): for a count argument given as decimal digits, the parsed
value is first reduced into the 8-bit `numTags` variable (mod 256); a result
above 20 is replaced by the clamp default 10, any other result is kept. -/
theorem slotCount_set_clamp (ds : Str) (s : Sys) (h : ∀ b ∈ ds, 48 ≤ b ∧ b ≤ 57) :
    (processData (78 :: ds) s).1.numTags
      = if decValue ds % 256 > 20 then 10 else decValue ds % 256 := by
  have hsw : startsWithCh (78 :: ds) 78 = true := by simp [startsWithCh]
  have hto : ((toIntC ((78 :: ds).drop 1)) % 256).toNat = decValue ds % 256 := by
    have hd : (78 :: ds).drop 1 = ds := rfl
    rw [hd]
    unfold toIntC
    rw [wrap32_emod256, atolVal_digits ds h]
    omega
  unfold processData
  rw [hsw, if_pos rfl]
  dsimp only
  rw [hto]

/-- C1 witness: the spec scenario `N3` sets the count to 3. -/
theorem slotCount_set_clamp_witness :
    (∀ b ∈ bytes "3", 48 ≤ b ∧ b ≤ 57)
  ∧ (processData (78 :: bytes "3") (sysInit romZero)).1.numTags
      = if decValue (bytes "3") % 256 > 20 then 10 else decValue (bytes "3") % 256 :=
  ⟨by decide, slotCount_set_clamp (bytes "3") (sysInit romZero) (by decide)⟩

/-! ### Claim C2: the C command and the text offset -/

/-- C2: the code stores `data.substring(3)`, so `C1LIGHT_ON` stores slot 0
command `IGHT_ON`, not `LIGHT_ON` as the firmware's own header comment and
HELP text promise for one-digit indices. -/
theorem cCommand_drops_first_char :
    (processData (bytes "C1LIGHT_ON") (sysInit romZero)).1.commands 0 = bytes "IGHT_ON"
  ∧ bytes "IGHT_ON" ≠ bytes "LIGHT_ON" := by decide

/-! ### Claim C3: acknowledgement channels -/

/-- C3 counterexample: a command line arriving on the Bluetooth channel is
acknowledged on Serial as well as Bluetooth, and in the boot mode (Standalone)
Serial is exactly the event-output channel. -/
theorem ack_broadcast_cex :
    Channel.serial ∈ ((readBTSerial (some (bytes "N3")) (sysInit romZero)).2.map Prod.fst)
  ∧ Channel.bt ∈ ((readBTSerial (some (bytes "N3")) (sysInit romZero)).2.map Prod.fst)
  ∧ evChan (sysInit romZero).mode = Channel.serial := by decide

/-- C3 (amended): parser acknowledgements go to both operator channels
(Serial and Bluetooth) regardless of arrival channel — the two reader
functions process a line identically — and never to `Serial2`; in Standalone
mode the Serial acknowledgement channel therefore coincides with the
event-output channel. -/
theorem ack_both_operator_channels :
    (∀ (data : Str) (s : Sys) (o : Out), o ∈ (processData data s).2 →
        o.1 = Channel.serial ∨ o.1 = Channel.bt)
  ∧ (∀ (line : Str) (s : Sys), readSerial (some line) s = readBTSerial (some line) s) := by
  constructor
  · intro data s o ho
    have hall : ((processData data s).2.all
        (fun o => decide (o.1 = Channel.serial ∨ o.1 = Channel.bt))) = true := by
      unfold processData
      repeat' split
      all_goals dsimp only
      all_goals try rfl
      all_goals rw [List.all_flatMap]
      all_goals simp
    have hrun := List.all_eq_true.mp hall o ho
    simpa using hrun
  · intro line s
    rfl

/-- C3 witness: the remove-command acknowledgement of `RFOO` lands on an
operator channel. -/
theorem ack_both_operator_channels_witness :
    ((Channel.bt, bytes "Remove Command: " ++ bytes "FOO") ∈
        (processData (bytes "RFOO") (sysInit romZero)).2)
  ∧ ((Channel.bt, bytes "Remove Command: " ++ bytes "FOO").1 = Channel.serial
      ∨ (Channel.bt, bytes "Remove Command: " ++ bytes "FOO").1 = Channel.bt) :=
  ⟨by decide, ack_both_operator_channels.1 (bytes "RFOO") (sysInit romZero) _ (by decide)⟩

/-! ### Claim C4: arrival and removal events for one tag visit -/

/-- C4: from the Absent state, the poll sequence none, X, X, none takes the
presence flag through false, true, true, false and emits exactly the events
Arrived(X) and Removed(X), with no duplicate on the repeated poll. -/
theorem presence_cycle_events (u : List Nat) (s : Sys) (h : s.cardPresesnt = false) :
    (runPolls [none, some u, some u, none] s).2
        = [Event.arrived (uidToStr u), Event.removed (uidToStr u)]
  ∧ (runPolls [none] s).1.cardPresesnt = false
  ∧ (runPolls [none, some u] s).1.cardPresesnt = true
  ∧ (runPolls [none, some u, some u] s).1.cardPresesnt = true
  ∧ (runPolls [none, some u, some u, none] s).1.cardPresesnt = false := by
  simp [runPolls, readNFC, h]

/-- C4 witness: one concrete visit of the tag with UID bytes 04 A1. -/
theorem presence_cycle_events_witness :
    (sysInit romZero).cardPresesnt = false
  ∧ (runPolls [none, some [4, 161], some [4, 161], none] (sysInit romZero)).2
      = [Event.arrived (uidToStr [4, 161]), Event.removed (uidToStr [4, 161])] :=
  ⟨by decide, (presence_cycle_events [4, 161] (sysInit romZero) (by decide)).1⟩

/-! ### Claim C5: polls while a tag is present -/

/-- C5 counterexample: while a tag is present, a successful poll (here of a
second, different tag) emits nothing and keeps `prevTagID`, but it does change
the recorded current tag identity: `tagID` is cleared at the start of every
poll cycle, so it goes from 04 to empty. -/
theorem present_poll_cex :
    sPresent.cardPresesnt = true
  ∧ (readNFC (some [5]) sPresent).2.1 = []
  ∧ (readNFC (some [5]) sPresent).2.2 = []
  ∧ (readNFC (some [5]) sPresent).1.prevTagID = sPresent.prevTagID
  ∧ sPresent.tagID = bytes "04"
  ∧ (readNFC (some [5]) sPresent).1.tagID ≠ sPresent.tagID := by decide

/-- C5 (amended): while Present, any successful poll — whatever identity the
reader reports — emits no event and no output and leaves every field except
the scratch `tagID` unchanged; `tagID` is reset to empty as on every cycle. -/
theorem present_poll_no_event (u : List Nat) (s : Sys) (h : s.cardPresesnt = true) :
    readNFC (some u) s = ({s with tagID := []}, [], []) := by
  simp [readNFC, h]

/-- C5 witness: the concrete present state, polled with a different UID. -/
theorem present_poll_no_event_witness :
    sPresent.cardPresesnt = true
  ∧ readNFC (some [5]) sPresent = ({sPresent with tagID := []}, [], []) :=
  ⟨by decide, present_poll_no_event [5] sPresent (by decide)⟩

/-! ### Claim C6: bind then reload round-trip -/

/-- C6: binding identity X to slot i through the T command and re-running
`eepromInit` on the resulting EEPROM yields X as slot i's tag identity,
whenever slot i is within the reloaded count and X is a genuine id string
(nonzero bytes, length below 256). -/
theorem bind_then_load_tag (i : Nat) (X : Str) (s : Sys)
    (hbytes : ∀ b ∈ X, b < 256 ∧ b ≠ 0) (hlen : X.length < 256)
    (hcount : i < (bindThenLoad i X s).numTags) :
    (bindThenLoad i X s).tags i = X := by
  have hi20 : i < 20 :=
    lt_of_lt_of_le hcount (by unfold bindThenLoad; exact eepromInit_numTags_le _)
  have hrom : (processData (bytes "T" ++ showNat (i + 1)) {s with prevTagID := X}).1.rom
      = writeStringToEEPROM (10 + i * 10) X s.rom := by
    rw [processData_T_rom i hi20]
  unfold bindThenLoad at hcount ⊢
  rw [eepromInit_tags _ i hcount, hrom]
  exact readString_writeString (10 + i * 10) X s.rom hlen hbytes

/-- C6 witness: bind `04A1B2C3` to slot index 2 with stored count 3. -/
theorem bind_then_load_tag_witness :
    (2 < (bindThenLoad 2 (bytes "04A1B2C3") (sysInit romThree)).numTags)
  ∧ (bindThenLoad 2 (bytes "04A1B2C3") (sysInit romThree)).tags 2 = bytes "04A1B2C3" :=
  ⟨by decide, bind_then_load_tag 2 (bytes "04A1B2C3") (sysInit romThree)
    (by decide) (by decide) (by decide)⟩

/-! ### Claim C7: record round-trip -/

/-- C7 counterexample: a three-character record containing a zero byte is
within the stride capacity but does not survive the round-trip, because the C
string rebuild in `readStringFromEEPROM` stops at the zero byte. -/
theorem record_roundtrip_nul_cex :
    ([65, 0, 66] : Str).length ≤ 9
  ∧ readStringFromEEPROM 0 (writeStringToEEPROM 0 [65, 0, 66] romZero) = [65]
  ∧ readStringFromEEPROM 0 (writeStringToEEPROM 0 [65, 0, 66] romZero) ≠ [65, 0, 66] := by
    decide

/-- C7 (amended): for byte strings of length at most 9 (the stride capacity)
none of whose characters is the zero byte, write-then-read returns the string
exactly, at every address. -/
theorem record_roundtrip (addr : Nat) (s : Str) (rom : Rom)
    (hlen : s.length ≤ 9) (hb : ∀ b ∈ s, b < 256 ∧ b ≠ 0) :
    readStringFromEEPROM addr (writeStringToEEPROM addr s rom) = s :=
  readString_writeString addr s rom (by omega) hb

/-- C7 witness: the spec's example record `A1B2C3`. -/
theorem record_roundtrip_witness :
    (bytes "A1B2C3").length ≤ 9
  ∧ readStringFromEEPROM 7 (writeStringToEEPROM 7 (bytes "A1B2C3") romZero)
      = bytes "A1B2C3" :=
  ⟨by decide, record_roundtrip 7 (bytes "A1B2C3") romZero (by decide) (by decide)⟩

/-! ### Claim C8: slot 19's tag record aliases slot 0's command record -/

/-- C8: the tag record of slot index 19 and the command record of slot
index 0 share EEPROM address 200, so binding X to slot 19 and reloading makes
X slot 0's command, for any id string X, as soon as the reloaded count covers
slot 0. -/
theorem slot19_tag_overwrites_cmd0 (X : Str) (s : Sys)
    (hbytes : ∀ b ∈ X, b < 256 ∧ b ≠ 0) (hlen : X.length < 256)
    (hcount : 1 ≤ (bindThenLoad 19 X s).numTags) :
    10 + 19 * 10 = 200 + 0 * 10
  ∧ (bindThenLoad 19 X s).commands 0 = X := by
  refine ⟨rfl, ?_⟩
  have hrom : (processData (bytes "T" ++ showNat (19 + 1)) {s with prevTagID := X}).1.rom
      = writeStringToEEPROM (10 + 19 * 10) X s.rom := by
    rw [processData_T_rom 19 (by omega)]
  unfold bindThenLoad at hcount ⊢
  rw [eepromInit_commands _ 0 hcount, hrom]
  show readStringFromEEPROM 200 (writeStringToEEPROM 200 X s.rom) = X
  exact readString_writeString 200 X s.rom hlen hbytes

/-- C8 witness: with stored count 1, binding `04A1B2C3` to slot 19 makes it
slot 0's command after reload. -/
theorem slot19_tag_overwrites_cmd0_witness :
    (1 ≤ (bindThenLoad 19 (bytes "04A1B2C3") (sysInit romOne)).numTags)
  ∧ (bindThenLoad 19 (bytes "04A1B2C3") (sysInit romOne)).commands 0 = bytes "04A1B2C3" :=
  ⟨by decide, (slot19_tag_overwrites_cmd0 (bytes "04A1B2C3") (sysInit romOne)
    (by decide) (by decide) (by decide)).2⟩

/-! ### Claim C9: the operating mode is Standalone forever -/

/-- C9: the mode boots as Standalone (false), no reachable operation mutates
it, and every event command emitted by `readNFC` in a reachable state goes to
the Serial (Standalone) channel and never to `Serial2` (Master). -/
theorem mode_standalone_invariant (rom : Rom) (s : Sys) (h : Reach rom s) :
    s.mode = false
  ∧ (∀ data : Str, (processData data s).1.mode = s.mode)
  ∧ (∀ poll : Option (List Nat), (readNFC poll s).1.mode = s.mode)
  ∧ (∀ (poll : Option (List Nat)) (o : Out), o ∈ (readNFC poll s).2.2 →
        o.1 = Channel.serial ∧ o.1 ≠ Channel.serial2) := by
  have hm := reach_mode rom s h
  refine ⟨hm, fun data => processData_mode data s,
    fun poll => readNFC_mode poll s, fun poll o ho => ?_⟩
  have hc := readNFC_channels poll s o ho
  rw [hm] at hc
  exact ⟨hc, by rw [hc]; decide⟩

/-- C9 witness: the boot state is reachable and its mode is Standalone. -/
theorem mode_standalone_invariant_witness :
    (eepromInit romZero).mode = false :=
  (mode_standalone_invariant romZero (eepromInit romZero) Reach.boot).1

/-! ### Claim C10: the tag count never exceeds the array length -/

/-- C10: in every reachable state the tag count is at most 20 (established by
`eepromInit`'s clamp, preserved by the N command's clamp and untouched by
polling), so every index produced by the linear tag scans is below the length
20 of the `tags` and `commands` arrays. -/
theorem numTags_bound_invariant (rom : Rom) (s : Sys) (h : Reach rom s) :
    s.numTags ≤ 20
  ∧ (∀ (id : Str) (i : Nat), firstMatch s.tags s.numTags id = some i → i < 20)
  ∧ (eepromInit rom).numTags ≤ 20 := by
  have hn := reach_numTags_le rom s h
  refine ⟨hn, fun id i hfi => ?_, eepromInit_numTags_le rom⟩
  have hmem : i ∈ List.range s.numTags := List.mem_of_find?_eq_some hfi
  have hlt := List.mem_range.mp hmem
  omega

/-- C10 witness: the boot state is reachable and satisfies the bound. -/
theorem numTags_bound_invariant_witness :
    (eepromInit romZero).numTags ≤ 20 :=
  (numTags_bound_invariant romZero (eepromInit romZero) Reach.boot).1
